import Mathlib

/-!
# Verification of the span formatter in `namedentityrecognizer.py`

A shallow embedding of `NER.__format_tagged_tokens` (src/namedentityrecognizer.py,
lines 82-139), the core span-merge/render algorithm of the repository, together
with theorems settling the specification's claims about it.

The Python function receives a list of `(token, entity)` string pairs.  It
  * unpacks the list with `zip(*tuple_list)` (line 95) — this raises a
    `ValueError` on the empty list, which we model with `Option`;
  * seeds the maps with the first token and `ent_tuple[0].capitalize()`
    (lines 105-109);
  * scans `j = 1 .. len-1`: if `ent_tuple[j] == ent_tuple[j-1]` (RAW label
    comparison, line 119) the token is appended to the current span's text with
    a space, otherwise a fresh span is opened holding the token and the
    CAPITALIZED label (lines 118-124);
  * renders each span: labels in `['Person', 'Organization', 'Location']` are
    wrapped in `<Label>...</Label>`, all others pass through (lines 128-134);
  * joins the rendered spans with `' '.join` (line 137).
-/

set_option autoImplicit false

namespace NERFormat

/-- Python `str.capitalize()`: first character uppercased, all following
characters lowercased (for the ASCII labels handled here, `Char.toUpper` /
`Char.toLower` coincide with Python's titlecasing and lowercasing). -/
def capitalize (s : String) : String :=
  match s.data with
  | [] => ""
  | c :: cs => ⟨c.toUpper :: cs.map Char.toLower⟩

/-- Python `' '.join(lst)` (line 137). -/
def joinSpace : List String → String
  | [] => ""
  | [a] => a
  | a :: rest => a ++ " " ++ joinSpace rest

/-- The merge loop of lines 118-124.  `prevEnt` is the raw label
`ent_tuple[j-1]` of the previous token, `curText` the text accumulated in
`idx_to_token_map[i]`, `curEnt` the capitalized label in `idx_to_ent_map[i]`.
The result lists the `(idx_to_token_map[k], idx_to_ent_map[k])` pairs in
index order `k = 0 .. i`. -/
def groupSpans (prevEnt curText curEnt : String) :
    List (String × String) → List (String × String)
  | [] => [(curText, curEnt)]
  | (tok, ent) :: rest =>
    if ent = prevEnt then
      groupSpans ent (curText ++ " " ++ tok) curEnt rest
    else
      (curText, curEnt) :: groupSpans ent tok (capitalize ent) rest

/-- The spans built from a tagged-token list: seeding with the first pair
(lines 105-109) followed by the merge loop.  Empty input has no spans. -/
def spans : List (String × String) → List (String × String)
  | [] => []
  | (tok, ent) :: rest => groupSpans ent tok (capitalize ent) rest

/-- The render step of lines 128-134: a span whose stored (capitalized) label
is one of `'Person'`, `'Organization'`, `'Location'` is wrapped in angle-bracket
tags, any other span passes through unmarked. -/
def renderSpan (p : String × String) : String :=
  if p.2 = "Person" ∨ p.2 = "Organization" ∨ p.2 = "Location" then
    "<" ++ p.2 ++ ">" ++ p.1 ++ "</" ++ p.2 ++ ">"
  else p.1

/-- `NER.__format_tagged_tokens` (lines 82-139).  `none` models the
`ValueError` raised by unpacking `zip(*[])` on empty input (line 95); on
non-empty input the function always returns the rendered, space-joined
string. -/
def formatTaggedTokens : List (String × String) → Option String
  | [] => none
  | (tok, ent) :: rest =>
    some (joinSpace ((groupSpans ent tok (capitalize ent) rest).map renderSpan))

/-! ## Positional span structure

To reason about which span an individual token lands in, we re-run the merge
loop keeping each span's constituent tokens as a list, and we track the run
sizes of equal adjacent raw labels. -/

/-- Variant of `groupSpans` that keeps each span's constituent tokens as a
list instead of pre-joining them with spaces; same recursion, same raw-label
merge decision. -/
def groupSpansToks (prevEnt : String) (curToks : List String) (curEnt : String) :
    List (String × String) → List (List String × String)
  | [] => [(curToks, curEnt)]
  | (tok, ent) :: rest =>
    if ent = prevEnt then
      groupSpansToks ent (curToks ++ [tok]) curEnt rest
    else
      (curToks, curEnt) :: groupSpansToks ent [tok] (capitalize ent) rest

/-- The spans of a tagged-token list, with constituent tokens kept as lists. -/
def spansToks : List (String × String) → List (List String × String)
  | [] => []
  | (tok, ent) :: rest => groupSpansToks ent [tok] (capitalize ent) rest

/-- Sizes of the runs of equal adjacent raw labels, given that the current run
already holds `n` tokens whose last token carries raw label `prev`. -/
def runSizesGo (prev : String) (n : Nat) : List String → List Nat
  | [] => [n]
  | e :: rest =>
    if e = prev then runSizesGo e (n + 1) rest else n :: runSizesGo e 1 rest

/-- Index of the chunk that position `i` falls into, for chunk sizes `cs`. -/
def spanOf : List Nat → Nat → Nat
  | [], _ => 0
  | n :: ns, i => if i < n then 0 else spanOf ns (i - n) + 1

/-- The index of the span holding token number `i` of the input — the value of
the Python loop variable `i` at the moment that token is placed into
`idx_to_token_map`. -/
def spanOfToken (l : List (String × String)) (i : Nat) : Nat :=
  spanOf ((spansToks l).map (fun c => c.1.length)) i

/-! ## Step-by-step loop model

A second, more literal embedding of the function: the mutable locals
`(i, idx_to_token_map, idx_to_ent_map)` become an explicit state threaded
through a fold over the loop indices `j = 1 .. len-1`, the two dictionaries
(whose keys are always exactly `0 .. i`) becoming lists indexed by position.
Proving it equal to `formatTaggedTokens` shows the imperative computation is a
pure, deterministic function of the input list alone. -/

/-- One iteration of the for-loop of lines 118-124 at loop index `j`, acting
on the state `(i, idx_to_token_map, idx_to_ent_map)`. -/
def loopBody (toks ents : List String) (st : Nat × List String × List String)
    (j : Nat) : Nat × List String × List String :=
  if ents.getD j "" = ents.getD (j - 1) "" then
    (st.1,
     st.2.1.set st.1 (st.2.1.getD st.1 "" ++ " " ++ toks.getD j ""),
     st.2.2)
  else
    (st.1 + 1,
     st.2.1 ++ [toks.getD j ""],
     st.2.2 ++ [capitalize (ents.getD j "")])

/-- The render loop of lines 128-134 in index form:
`for k in range(len(idx_to_token_map))`. -/
def renderLoop (tokMap entMap : List String) : List String :=
  (List.range tokMap.length).map fun k =>
    if entMap.getD k "" = "Person" ∨ entMap.getD k "" = "Organization" ∨
        entMap.getD k "" = "Location" then
      "<" ++ entMap.getD k "" ++ ">" ++ tokMap.getD k "" ++ "</" ++
        entMap.getD k "" ++ ">"
    else tokMap.getD k ""

/-- Literal state-machine model of `__format_tagged_tokens`: unzip, seed the
maps at index `0` (lines 105-109), fold the loop body over `j = 1 .. len-1`
(line 118), render each index (lines 128-134), join with spaces (line 137). -/
def formatTaggedTokensLoop : List (String × String) → Option String
  | [] => none
  | p :: rest =>
    let toks := (p :: rest).map Prod.fst
    let ents := (p :: rest).map Prod.snd
    let st := (List.range' 1 (toks.length - 1)).foldl (loopBody toks ents)
      (0, [toks.getD 0 ""], [capitalize (ents.getD 0 "")])
    some (joinSpace (renderLoop st.2.1 st.2.2))

/-- Appending one more token to the text of the last span (the effect of
line 120 on the span list). -/
def appendToLast : List (String × String) → String → List (String × String)
  | [], _ => []
  | [p], t => [(p.1 ++ " " ++ t, p.2)]
  | p :: rest, t => p :: appendToLast rest t

/-! ## Basic facts about the embedding -/

theorem groupSpans_ne_nil (prevEnt curText curEnt : String)
    (l : List (String × String)) : groupSpans prevEnt curText curEnt l ≠ [] := by
  induction l generalizing prevEnt curText curEnt with
  | nil => simp [groupSpans]
  | cons p rest ih =>
    obtain ⟨tok, ent⟩ := p
    unfold groupSpans
    by_cases h : ent = prevEnt <;> simp [h, ih]

theorem formatTaggedTokens_eq_spans (l : List (String × String)) (h : l ≠ []) :
    formatTaggedTokens l = some (joinSpace ((spans l).map renderSpan)) := by
  match l with
  | [] => exact absurd rfl h
  | (tok, ent) :: rest => rfl

theorem joinSpace_cons (a : String) (l : List String) (h : l ≠ []) :
    joinSpace (a :: l) = a ++ " " ++ joinSpace l := by
  match l with
  | [] => exact absurd rfl h
  | b :: l' => rfl

theorem joinSpace_glue (a b : String) (l : List String) :
    joinSpace ((a ++ " " ++ b) :: l) = a ++ " " ++ joinSpace (b :: l) := by
  match l with
  | [] => rfl
  | c :: l' => simp [joinSpace, String.append_assoc]

/-- When every remaining raw label equals the previous one, the merge loop
accumulates everything into the single current span. -/
theorem groupSpans_all_eq (rest : List (String × String))
    (prev cur curEnt : String) (h : ∀ p ∈ rest, p.2 = prev) :
    groupSpans prev cur curEnt rest =
      [(joinSpace (cur :: rest.map Prod.fst), curEnt)] := by
  induction rest generalizing prev cur with
  | nil => rfl
  | cons p rest' ih =>
    obtain ⟨tok, ent⟩ := p
    have hent : ent = prev := h (tok, ent) (by simp)
    have h' : ∀ q ∈ rest', q.2 = ent := by
      intro q hq
      rw [hent]
      exact h q (by simp [hq])
    rw [groupSpans, if_pos hent, ih ent (cur ++ " " ++ tok) h', joinSpace_glue]
    simp [joinSpace_cons cur (tok :: List.map Prod.fst rest') (by simp)]

/-- The space-joined texts of the spans produced by the merge loop are exactly
the space-joined input tokens: the loop only ever moves each token, once and
in order, into some span's text. -/
theorem joinSpace_spans_texts (rest : List (String × String))
    (prev cur curEnt : String) :
    joinSpace ((groupSpans prev cur curEnt rest).map Prod.fst) =
      joinSpace (cur :: rest.map Prod.fst) := by
  induction rest generalizing prev cur curEnt with
  | nil => rfl
  | cons p rest' ih =>
    obtain ⟨tok, ent⟩ := p
    by_cases h : ent = prev
    · rw [groupSpans, if_pos h, ih, joinSpace_glue]
      simp [joinSpace_cons cur (tok :: List.map Prod.fst rest') (by simp)]
    · have hne : (groupSpans ent tok (capitalize ent) rest').map Prod.fst ≠ [] := by
        simp [groupSpans_ne_nil]
      rw [groupSpans, if_neg h, List.map_cons, joinSpace_cons _ _ hne, ih]
      simp [joinSpace_cons cur (tok :: List.map Prod.fst rest') (by simp)]

theorem joinSpace_singleton (a : String) : joinSpace [a] = a := rfl

theorem joinSpace_snoc (l : List String) (t : String) (h : l ≠ []) :
    joinSpace (l ++ [t]) = joinSpace l ++ " " ++ t := by
  induction l with
  | nil => exact absurd rfl h
  | cons a l' ih =>
    cases l' with
    | nil => rfl
    | cons b l'' =>
      rw [List.cons_append, joinSpace_cons a ((b :: l'') ++ [t]) (by simp),
        joinSpace_cons a (b :: l'') (by simp), ih (by simp)]
      simp [String.append_assoc]

/-- `groupSpans` is `groupSpansToks` with every span's token list joined by
spaces. -/
theorem groupSpansToks_join (rest : List (String × String))
    (prev curEnt : String) (curToks : List String) (h : curToks ≠ []) :
    groupSpans prev (joinSpace curToks) curEnt rest =
      (groupSpansToks prev curToks curEnt rest).map
        (fun c => (joinSpace c.1, c.2)) := by
  induction rest generalizing prev curEnt curToks with
  | nil => rfl
  | cons p rest' ih =>
    obtain ⟨tok, ent⟩ := p
    by_cases he : ent = prev
    · rw [groupSpans, if_pos he, groupSpansToks, if_pos he,
        ← joinSpace_snoc curToks tok h, ih ent curEnt (curToks ++ [tok]) (by simp)]
    · rw [groupSpans, if_neg he, groupSpansToks, if_neg he, List.map_cons]
      have h1 := ih ent (capitalize ent) [tok] (by simp)
      rw [joinSpace_singleton] at h1
      rw [h1]

/-- The spans of the formatter are the token-list spans, space-joined. -/
theorem spans_eq_spansToks (l : List (String × String)) :
    spans l = (spansToks l).map (fun c => (joinSpace c.1, c.2)) := by
  cases l with
  | nil => rfl
  | cons p rest =>
    obtain ⟨tok, ent⟩ := p
    have h := groupSpansToks_join rest ent (capitalize ent) [tok] (by simp)
    rw [joinSpace_singleton] at h
    exact h

/-- The span sizes produced by the merge loop are the run sizes of equal
adjacent raw labels. -/
theorem groupSpansToks_sizes (rest : List (String × String))
    (prev curEnt : String) (curToks : List String) :
    (groupSpansToks prev curToks curEnt rest).map (fun c => c.1.length) =
      runSizesGo prev curToks.length (rest.map Prod.snd) := by
  induction rest generalizing prev curEnt curToks with
  | nil => rfl
  | cons p rest' ih =>
    obtain ⟨tok, ent⟩ := p
    by_cases he : ent = prev
    · simp only [groupSpansToks, List.map_cons, runSizesGo, if_pos he]
      have h1 := ih ent curEnt (curToks ++ [tok])
      simpa using h1
    · simp only [groupSpansToks, List.map_cons, runSizesGo, if_neg he]
      have h1 := ih ent (capitalize ent) [tok]
      simpa using h1

/-- Positions inside the current (still open) run belong to chunk `0`. -/
theorem spanOf_runSizesGo_lt (es : List String) :
    ∀ (prev : String) (n j : Nat), j < n → spanOf (runSizesGo prev n es) j = 0 := by
  induction es with
  | nil =>
    intro prev n j h
    simp [runSizesGo, spanOf, h]
  | cons e rest ih =>
    intro prev n j h
    by_cases he : e = prev
    · rw [runSizesGo, if_pos he]
      exact ih e (n + 1) j (Nat.lt_succ_of_lt h)
    · rw [runSizesGo, if_neg he]
      simp [spanOf, h]

/-- The first position after a run of size `m` opens a new chunk exactly when
the next raw label differs. -/
theorem spanOf_runSizesGo_boundary (prev : String) (m : Nat) (e : String)
    (rest : List String) :
    spanOf (runSizesGo prev m (e :: rest)) m = if e = prev then 0 else 1 := by
  by_cases he : e = prev
  · rw [runSizesGo, if_pos he, if_pos he]
    exact spanOf_runSizesGo_lt rest e (m + 1) m (Nat.lt_succ_self m)
  · rw [runSizesGo, if_neg he, if_neg he]
    simp [spanOf, spanOf_runSizesGo_lt rest e 1 0 Nat.one_pos]

/-- Crossing from position `n + i` to `n + i + 1` increments the chunk index
exactly when the raw labels at offsets `i` and `i + 1` differ. -/
theorem spanOf_runSizesGo_step (es : List String) :
    ∀ (prev : String) (n i : Nat), i + 1 < es.length →
      spanOf (runSizesGo prev n es) (n + i + 1) =
        spanOf (runSizesGo prev n es) (n + i) +
          (if es.getD (i + 1) "" = es.getD i "" then 0 else 1) := by
  induction es with
  | nil =>
    intro prev n i h
    exact absurd h (by simp)
  | cons e rest ih =>
    intro prev n i h
    by_cases he : e = prev
    · rw [runSizesGo, if_pos he]
      cases i with
      | zero =>
        cases rest with
        | nil => simp at h
        | cons e' rest' =>
          have h0 : spanOf (runSizesGo e (n + 1) (e' :: rest')) n = 0 :=
            spanOf_runSizesGo_lt _ e (n + 1) n (Nat.lt_succ_self n)
          have h1 : spanOf (runSizesGo e (n + 1) (e' :: rest')) (n + 1) =
              if e' = e then 0 else 1 :=
            spanOf_runSizesGo_boundary e (n + 1) e' rest'
          rw [show n + 0 + 1 = n + 1 from by omega, show n + 0 = n from by omega,
            h0, h1]
          simp [he]
      | succ i' =>
        have h1 := ih e (n + 1) i' (by simpa using Nat.lt_of_succ_lt_succ h)
        rw [show n + (i' + 1) + 1 = n + 1 + i' + 1 from by omega,
          show n + (i' + 1) = n + 1 + i' from by omega, h1]
        simp
    · rw [runSizesGo, if_neg he]
      have hni : ¬(n + i < n) := by omega
      have hni1 : ¬(n + i + 1 < n) := by omega
      simp only [spanOf, if_neg hni, if_neg hni1]
      rw [show n + i + 1 - n = i + 1 from by omega,
        show n + i - n = i from by omega]
      cases i with
      | zero =>
        cases rest with
        | nil => simp at h
        | cons e' rest' =>
          have h0 : spanOf (runSizesGo e 1 (e' :: rest')) 0 = 0 :=
            spanOf_runSizesGo_lt _ e 1 0 Nat.one_pos
          have h1 : spanOf (runSizesGo e 1 (e' :: rest')) 1 =
              if e' = e then 0 else 1 :=
            spanOf_runSizesGo_boundary e 1 e' rest'
          rw [h0, h1]
          by_cases hee : e' = e <;> simp [hee]
      | succ i' =>
        have h1 := ih e 1 i' (by simpa using Nat.lt_of_succ_lt_succ h)
        rw [show (1 : Nat) + i' + 1 = i' + 1 + 1 from by omega,
          show (1 : Nat) + i' = i' + 1 from by omega] at h1
        rw [h1]
        simp only [List.getD_cons_succ]
        omega

/-- The raw label of token `i`, read off the label list with a default. -/
theorem snd_getD (l : List (String × String)) :
    ∀ (i : Nat) (h : i < l.length),
      (l.map Prod.snd).getD i "" = (l.get ⟨i, h⟩).2 := by
  induction l with
  | nil =>
    intro i h
    simp at h
  | cons p rest ih =>
    intro i h
    cases i with
    | zero => rfl
    | succ i' =>
      show (rest.map Prod.snd).getD i' "" = (rest.get ⟨i', _⟩).2
      exact ih i' (Nat.lt_of_succ_lt_succ h)

/-! ## Equivalence of the loop model and the recursive embedding -/

theorem appendToLast_cons (x : String × String) (gs : List (String × String))
    (t : String) (h : gs ≠ []) :
    appendToLast (x :: gs) t = x :: appendToLast gs t := by
  cases gs with
  | nil => exact absurd rfl h
  | cons q gs' => rfl

theorem appendToLast_map_snd (gs : List (String × String)) (t : String) :
    (appendToLast gs t).map Prod.snd = gs.map Prod.snd := by
  induction gs with
  | nil => rfl
  | cons p gs' ih =>
    cases gs' with
    | nil => rfl
    | cons q gs'' =>
      simp only [appendToLast, List.map_cons]
      rw [show (appendToLast (q :: gs'') t).map Prod.snd =
        (q :: gs'').map Prod.snd from ih]
      simp

theorem appendToLast_length (gs : List (String × String)) (t : String) :
    (appendToLast gs t).length = gs.length := by
  have h := appendToLast_map_snd gs t
  calc (appendToLast gs t).length
      = ((appendToLast gs t).map Prod.snd).length := by simp
    _ = ((gs.map Prod.snd)).length := by rw [h]
    _ = gs.length := by simp

theorem appendToLast_map_fst (gs : List (String × String)) (t : String)
    (h : gs ≠ []) :
    (appendToLast gs t).map Prod.fst =
      (gs.map Prod.fst).set (gs.length - 1)
        ((gs.map Prod.fst).getD (gs.length - 1) "" ++ " " ++ t) := by
  induction gs with
  | nil => exact absurd rfl h
  | cons p gs' ih =>
    cases gs' with
    | nil => rfl
    | cons q gs'' =>
      have h1 := ih (by simp)
      simp only [List.length_cons, Nat.add_sub_cancel] at h1
      simp only [appendToLast, List.map_cons, List.length_cons,
        Nat.add_sub_cancel, List.set_cons_succ, List.getD_cons_succ]
      rw [h1]
      simp

/-- Extending the input by one tagged token either grows the final span's text
(when the new raw label matches the last raw label) or appends a fresh span. -/
theorem groupSpans_snoc (rest : List (String × String)) :
    ∀ (prev cur curEnt : String) (p : String × String),
      groupSpans prev cur curEnt (rest ++ [p]) =
        if p.2 = (rest.map Prod.snd).getLastD prev then
          appendToLast (groupSpans prev cur curEnt rest) p.1
        else groupSpans prev cur curEnt rest ++ [(p.1, capitalize p.2)] := by
  induction rest with
  | nil =>
    intro prev cur curEnt p
    obtain ⟨t, e⟩ := p
    by_cases he : e = prev
    · simp [groupSpans, appendToLast, he]
    · simp [groupSpans, appendToLast, he]
  | cons q rest' ih =>
    intro prev cur curEnt p
    obtain ⟨t', e'⟩ := q
    by_cases he : e' = prev
    · rw [List.cons_append, groupSpans, if_pos he,
        ih e' (cur ++ " " ++ t') curEnt p, groupSpans, if_pos he]
      simp only [List.map_cons, List.getLastD_cons]
    · rw [List.cons_append, groupSpans, if_neg he,
        ih e' t' (capitalize e') p, groupSpans, if_neg he]
      simp only [List.map_cons, List.getLastD_cons]
      by_cases hc : p.2 = (rest'.map Prod.snd).getLastD e'
      · rw [if_pos hc, if_pos hc,
          appendToLast_cons _ _ _ (groupSpans_ne_nil e' t' (capitalize e') rest')]
      · rw [if_neg hc, if_neg hc, List.cons_append]

/-- The token text of token `i`, read off the token list with a default. -/
theorem fst_getD (l : List (String × String)) :
    ∀ (i : Nat) (h : i < l.length),
      (l.map Prod.fst).getD i "" = (l.get ⟨i, h⟩).1 := by
  induction l with
  | nil =>
    intro i h
    simp at h
  | cons p rest ih =>
    intro i h
    cases i with
    | zero => rfl
    | succ i' =>
      show (rest.map Prod.fst).getD i' "" = (rest.get ⟨i', _⟩).1
      exact ih i' (Nat.lt_of_succ_lt_succ h)

/-- Reading the label dictionary at the previous loop index `j - 1 = m` gives
the raw label of the last element of the already-processed prefix. -/
theorem getD_cons_getLastD (e₀ d : String) :
    ∀ (m : Nat) (es : List String), m ≤ es.length →
      (e₀ :: es).getD m d = (es.take m).getLastD e₀ := by
  intro m
  induction m generalizing e₀ with
  | zero =>
    intro es h
    rfl
  | succ k ih =>
    intro es h
    cases es with
    | nil => simp at h
    | cons e₁ es' =>
      show (e₁ :: es').getD k d = ((e₁ :: es').take (k + 1)).getLastD e₀
      rw [List.take_succ_cons, List.getLastD_cons]
      exact ih e₁ es' (Nat.le_of_succ_le_succ h)

/-- One loop iteration advances the state from the spans of the length-`m`
prefix to the spans of the length-`m + 1` prefix. -/
theorem loopBody_step (rest : List (String × String)) (t₀ e₀ : String)
    (m : Nat) (hmlt : m < rest.length) :
    loopBody (t₀ :: rest.map Prod.fst) (e₀ :: rest.map Prod.snd)
      ((groupSpans e₀ t₀ (capitalize e₀) (rest.take m)).length - 1,
       (groupSpans e₀ t₀ (capitalize e₀) (rest.take m)).map Prod.fst,
       (groupSpans e₀ t₀ (capitalize e₀) (rest.take m)).map Prod.snd)
      (1 + m) =
    ((groupSpans e₀ t₀ (capitalize e₀) (rest.take (m + 1))).length - 1,
     (groupSpans e₀ t₀ (capitalize e₀) (rest.take (m + 1))).map Prod.fst,
     (groupSpans e₀ t₀ (capitalize e₀) (rest.take (m + 1))).map Prod.snd) := by
  have htake : rest.take (m + 1) = rest.take m ++ [rest.get ⟨m, hmlt⟩] := by
    rw [List.take_succ, List.getElem?_eq_getElem hmlt]
    simp [List.get_eq_getElem]
  have hgj : (e₀ :: rest.map Prod.snd).getD (1 + m) "" = (rest.get ⟨m, hmlt⟩).2 := by
    rw [show (1 : Nat) + m = m + 1 from by omega, List.getD_cons_succ]
    exact snd_getD rest m hmlt
  have hgj' : (e₀ :: rest.map Prod.snd).getD (1 + m - 1) "" =
      ((rest.take m).map Prod.snd).getLastD e₀ := by
    rw [show (1 : Nat) + m - 1 = m from by omega,
      getD_cons_getLastD e₀ "" m (rest.map Prod.snd) (by simp [Nat.le_of_lt hmlt]),
      List.map_take]
  have htj : (t₀ :: rest.map Prod.fst).getD (1 + m) "" = (rest.get ⟨m, hmlt⟩).1 := by
    rw [show (1 : Nat) + m = m + 1 from by omega, List.getD_cons_succ]
    exact fst_getD rest m hmlt
  rw [htake, groupSpans_snoc (rest.take m) e₀ t₀ (capitalize e₀) (rest.get ⟨m, hmlt⟩)]
  have hne := groupSpans_ne_nil e₀ t₀ (capitalize e₀) (rest.take m)
  by_cases hc : (rest.get ⟨m, hmlt⟩).2 = ((rest.take m).map Prod.snd).getLastD e₀
  · rw [if_pos hc]
    unfold loopBody
    rw [hgj, hgj', if_pos hc, htj]
    dsimp only
    rw [appendToLast_length, appendToLast_map_fst _ _ hne, appendToLast_map_snd]
  · rw [if_neg hc]
    unfold loopBody
    rw [hgj, hgj', if_neg hc, htj]
    dsimp only
    refine Prod.ext ?_ (Prod.ext ?_ ?_)
    · dsimp only
      rw [List.length_append]
      have hpos := List.length_pos.mpr hne
      simp only [List.length_cons, List.length_nil]
      omega
    · dsimp only
      rw [List.map_append]
      simp
    · dsimp only
      rw [List.map_append]
      simp

/-- The fold of the loop body over `j = 1 .. m` computes exactly the span
bookkeeping of the length-`m + 1` prefix of the input. -/
theorem loopFold_invariant (rest : List (String × String)) (t₀ e₀ : String) :
    ∀ m, m ≤ rest.length →
      (List.range' 1 m).foldl
        (loopBody (t₀ :: rest.map Prod.fst) (e₀ :: rest.map Prod.snd))
        (0, [t₀], [capitalize e₀]) =
      ((groupSpans e₀ t₀ (capitalize e₀) (rest.take m)).length - 1,
       (groupSpans e₀ t₀ (capitalize e₀) (rest.take m)).map Prod.fst,
       (groupSpans e₀ t₀ (capitalize e₀) (rest.take m)).map Prod.snd) := by
  intro m
  induction m with
  | zero =>
    intro _
    rfl
  | succ m ih =>
    intro hm
    have hmlt : m < rest.length := hm
    rw [List.range'_concat 1 m, List.foldl_concat, ih (Nat.le_of_lt hmlt),
      show (1 : Nat) + 1 * m = 1 + m from by omega]
    exact loopBody_step rest t₀ e₀ m hmlt

/-- The index-based render loop agrees with rendering each span. -/
theorem renderLoop_eq_map (gs : List (String × String)) :
    renderLoop (gs.map Prod.fst) (gs.map Prod.snd) = gs.map renderSpan := by
  induction gs with
  | nil => rfl
  | cons p gs' ih =>
    unfold renderLoop
    simp only [List.map_cons, List.length_cons, List.length_map]
    rw [List.range_succ_eq_map]
    simp only [List.map_cons, List.map_map, List.getD_cons_zero]
    refine congrArg₂ List.cons rfl ?_
    rw [← ih]
    unfold renderLoop
    simp only [List.length_map]
    apply List.map_congr_left
    intro k _
    simp [Nat.succ_eq_add_one, List.getD_cons_succ]

end NERFormat

open NERFormat

/-- **C2 counterexample.** On the concrete input
`[("New","location"), ("York","LOCATION")]` — two adjacent tokens whose raw
labels differ only in letter case — the formatter produces TWO spans and two
separate pairs of `<Location>` tags, not one merged span: the raw-label
comparison at line 119 (`ent_tuple[j] == ent_tuple[j-1]`) is performed before
capitalization, so the claim as stated is false. -/
theorem claim2_counterexample :
    spans [("New", "location"), ("York", "LOCATION")] =
      [("New", "Location"), ("York", "Location")] ∧
    formatTaggedTokens [("New", "location"), ("York", "LOCATION")] =
      some "<Location>New</Location> <Location>York</Location>" ∧
    formatTaggedTokens [("New", "location"), ("York", "LOCATION")] ≠
      some "<Location>New York</Location>" := by
  refine ⟨rfl, rfl, ?_⟩
  decide

/-- **C2 amended.** The adjacency-merge comparison is performed on the RAW
label strings, not the normalized form: two adjacent tagged tokens whose raw
labels differ — even when they differ only in letter case — are placed in two
separate spans, each carrying the capitalized label; two adjacent tokens merge
into one span exactly when their raw labels are equal. -/
theorem claim2_raw_label_merge (t₁ t₂ e₁ e₂ : String) :
    (e₂ ≠ e₁ → spans [(t₁, e₁), (t₂, e₂)] =
        [(t₁, capitalize e₁), (t₂, capitalize e₂)]) ∧
    (e₂ = e₁ → spans [(t₁, e₁), (t₂, e₂)] =
        [(t₁ ++ " " ++ t₂, capitalize e₁)]) := by
  constructor <;> intro h <;> simp [spans, groupSpans, h]

/-- Witness for **C2 amended** at the concrete input of the counterexample. -/
theorem claim2_raw_label_merge_witness :
    spans [("New", "location"), ("York", "LOCATION")] =
      [("New", "Location"), ("York", "Location")] :=
  (claim2_raw_label_merge "New" "York" "location" "LOCATION").1 (by decide)

open NERFormat

/-- **C1.** For the input tagged-token sequence
`[("Tim","PERSON"),("went","O"),("to","O"),("JP","ORGANIZATION"),
("Morgan","ORGANIZATION"),("office","O"),("in","O"),("New","LOCATION"),
("York","LOCATION"),(".","O")]`, the formatter returns exactly the string
`"<Person>Tim</Person> went to <Organization>JP Morgan</Organization> office
in <Location>New York</Location> ."`. -/
theorem claim1_scenario_one :
    formatTaggedTokens
      [("Tim", "PERSON"), ("went", "O"), ("to", "O"), ("JP", "ORGANIZATION"),
       ("Morgan", "ORGANIZATION"), ("office", "O"), ("in", "O"),
       ("New", "LOCATION"), ("York", "LOCATION"), (".", "O")] =
    some ("<Person>Tim</Person> went to <Organization>JP Morgan</Organization> office in <Location>New York</Location> .") := by
  decide

/-- **C4.** When the input tagged-token sequence is empty, the formatter fails
(the unpacking of `zip(*[])` at line 95 raises `ValueError`, modelled as
`none`) and produces no output string. -/
theorem claim4_empty_input_fails :
    formatTaggedTokens [] = none := rfl

/-- **C3.** For every non-empty tagged-token sequence, the output is the
space-join of the rendered spans, and the output with all emitted tag markup
removed — `renderSpan` wraps exactly the span text `p.1`, so stripping the
emitted markup of a rendered span leaves `p.1` — equals the original token
texts joined by single spaces, in original order: the spans partition the
input with no token lost, duplicated, or reordered. -/
theorem claim3_partition (l : List (String × String)) (hne : l ≠ []) :
    formatTaggedTokens l = some (joinSpace ((spans l).map renderSpan)) ∧
    joinSpace ((spans l).map Prod.fst) = joinSpace (l.map Prod.fst) := by
  cases l with
  | nil => exact absurd rfl hne
  | cons p rest =>
    obtain ⟨tok, ent⟩ := p
    refine ⟨rfl, ?_⟩
    show joinSpace ((groupSpans ent tok (capitalize ent) rest).map Prod.fst) = _
    rw [joinSpace_spans_texts]
    simp

/-- Witness for **C3** at a concrete two-token input. -/
theorem claim3_partition_witness :
    formatTaggedTokens [("Tim", "PERSON"), ("went", "O")] =
      some (joinSpace ((spans [("Tim", "PERSON"), ("went", "O")]).map renderSpan)) ∧
    joinSpace ((spans [("Tim", "PERSON"), ("went", "O")]).map Prod.fst) =
      joinSpace ([("Tim", "PERSON"), ("went", "O")].map Prod.fst) :=
  claim3_partition [("Tim", "PERSON"), ("went", "O")] (by decide)

/-- **C7.** For every non-empty input in which every label is `"O"`, the
output equals the input token texts joined by single spaces, verbatim: the
single all-`"O"` span is rendered unmarked, so no tags appear. -/
theorem claim7_all_O (l : List (String × String)) (hne : l ≠ [])
    (hO : ∀ p ∈ l, p.2 = "O") :
    formatTaggedTokens l = some (joinSpace (l.map Prod.fst)) := by
  cases l with
  | nil => exact absurd rfl hne
  | cons p rest =>
    obtain ⟨tok, ent⟩ := p
    have hent : ent = "O" := hO (tok, ent) (by simp)
    subst hent
    have hrest : ∀ q ∈ rest, q.2 = "O" := fun q hq => hO q (by simp [hq])
    show some (joinSpace
      ((groupSpans "O" tok (capitalize "O") rest).map renderSpan)) = _
    rw [groupSpans_all_eq rest "O" tok (capitalize "O") hrest]
    have hcap : capitalize "O" = "O" := by decide
    rw [hcap]
    have hno : ¬(("O" : String) = "Person" ∨ ("O" : String) = "Organization" ∨
        ("O" : String) = "Location") := by decide
    have hrs : renderSpan (joinSpace (tok :: rest.map Prod.fst), "O") =
        joinSpace (tok :: rest.map Prod.fst) := if_neg hno
    simp [joinSpace, hrs]

/-- Witness for **C7** at a concrete all-`"O"` input. -/
theorem claim7_all_O_witness :
    formatTaggedTokens [("hello", "O"), ("world", "O")] =
      some (joinSpace ([("hello", "O"), ("world", "O")].map Prod.fst)) :=
  claim7_all_O [("hello", "O"), ("world", "O")] (by decide)
    (by intro p hp; simp at hp; rcases hp with h | h <;> simp [h])

/-- **C6.** A label outside the three recognized categories never causes the
formatter to fail: the formatter succeeds on every non-empty input, and a span
of two adjacent `"MISC"` tokens is rendered unmarked and space-joined, with no
tags emitted for that span. -/
theorem claim6_unrecognized_label (t₁ t₂ : String) (l : List (String × String))
    (hne : l ≠ []) :
    formatTaggedTokens [(t₁, "MISC"), (t₂, "MISC")] = some (t₁ ++ " " ++ t₂) ∧
    (formatTaggedTokens l).isSome = true := by
  constructor
  · have hcap : capitalize "MISC" = "Misc" := by decide
    have hno : ¬(("Misc" : String) = "Person" ∨ ("Misc" : String) = "Organization" ∨
        ("Misc" : String) = "Location") := by decide
    show some (joinSpace
      ((groupSpans "MISC" t₁ (capitalize "MISC") [(t₂, "MISC")]).map
        renderSpan)) = _
    rw [groupSpans, if_pos rfl]
    show some (joinSpace [renderSpan (t₁ ++ " " ++ t₂, capitalize "MISC")]) = _
    rw [hcap]
    have hrs : renderSpan (t₁ ++ " " ++ t₂, "Misc") = t₁ ++ " " ++ t₂ :=
      if_neg hno
    rw [hrs]
    rfl
  · cases l with
    | nil => exact absurd rfl hne
    | cons p rest =>
      obtain ⟨tok, ent⟩ := p
      rfl

/-- Witness for **C6** at concrete inputs. -/
theorem claim6_unrecognized_label_witness :
    formatTaggedTokens [("foo", "MISC"), ("bar", "MISC")] =
      some ("foo" ++ " " ++ "bar") ∧
    (formatTaggedTokens [("x", "O")]).isSome = true :=
  claim6_unrecognized_label "foo" "bar" [("x", "O")] (by decide)

/-- **C8.** The output is the space-join of the rendered spans, and every
rendered span is either the span's bare text or that text wrapped in exactly
one opening and one matching closing tag — so an opening tag never appears
between another emitted tag's opening bracket and its matching close: emitted
markup is never nested. -/
theorem claim8_no_nesting (l : List (String × String)) (hne : l ≠ []) :
    formatTaggedTokens l = some (joinSpace ((spans l).map renderSpan)) ∧
    ∀ p ∈ spans l, renderSpan p = p.1 ∨
      ∃ E, (E = "Person" ∨ E = "Organization" ∨ E = "Location") ∧
        renderSpan p = "<" ++ E ++ ">" ++ p.1 ++ "</" ++ E ++ ">" := by
  refine ⟨formatTaggedTokens_eq_spans l hne, ?_⟩
  intro p hp
  by_cases h : p.2 = "Person" ∨ p.2 = "Organization" ∨ p.2 = "Location"
  · exact Or.inr ⟨p.2, h, by unfold renderSpan; rw [if_pos h]⟩
  · exact Or.inl (by unfold renderSpan; rw [if_neg h])

/-- Witness for **C8** at a concrete single-entity input. -/
theorem claim8_no_nesting_witness :
    formatTaggedTokens [("Acme", "ORGANIZATION")] =
      some (joinSpace ((spans [("Acme", "ORGANIZATION")]).map renderSpan)) ∧
    ∀ p ∈ spans [("Acme", "ORGANIZATION")], renderSpan p = p.1 ∨
      ∃ E, (E = "Person" ∨ E = "Organization" ∨ E = "Location") ∧
        renderSpan p = "<" ++ E ++ ">" ++ p.1 ++ "</" ++ E ++ ">" :=
  claim8_no_nesting [("Acme", "ORGANIZATION")] (by decide)

/-- **C10.** On every non-empty list of (token, label) pairs the formatter
terminates and returns a string: the failing unpack at line 95 is reached only
by empty input, and no indexing, dictionary lookup, or unpacking step in the
embedded algorithm can fail on well-formed non-empty input (the embedding is a
total function returning `some` on every non-empty list). -/
theorem claim10_total_on_nonempty (l : List (String × String)) (hne : l ≠ []) :
    ∃ s : String, formatTaggedTokens l = some s := by
  cases l with
  | nil => exact absurd rfl hne
  | cons p rest =>
    obtain ⟨tok, ent⟩ := p
    exact ⟨_, rfl⟩

/-- Witness for **C10** at a concrete input. -/
theorem claim10_total_on_nonempty_witness :
    ∃ s : String, formatTaggedTokens [("a", "PERSON")] = some s :=
  claim10_total_on_nonempty [("a", "PERSON")] (by decide)

/-- **C5.** For every input sequence and every position `i`, if the normalized
(capitalized) label at position `i` differs from the normalized label at
position `i + 1`, then token `i` and token `i + 1` are placed in different
spans: the merge test at line 119 compares raw labels, and raw labels that
differ after capitalization already differ raw, so the loop variable `i` is
incremented between the two tokens. -/
theorem claim5_diff_labels_diff_spans (l : List (String × String)) (i : Nat)
    (h : i + 1 < l.length)
    (hcap : capitalize (l.get ⟨i, Nat.lt_of_succ_lt h⟩).2 ≠
      capitalize (l.get ⟨i + 1, h⟩).2) :
    spanOfToken l i ≠ spanOfToken l (i + 1) := by
  have hraw : (l.get ⟨i, Nat.lt_of_succ_lt h⟩).2 ≠ (l.get ⟨i + 1, h⟩).2 :=
    fun he => hcap (by rw [he])
  have hD : (l.map Prod.snd).getD i "" ≠ (l.map Prod.snd).getD (i + 1) "" := by
    rw [snd_getD l i (Nat.lt_of_succ_lt h), snd_getD l (i + 1) h]
    exact hraw
  cases l with
  | nil => simp at h
  | cons p rest =>
    obtain ⟨t, e⟩ := p
    have hsz : (spansToks ((t, e) :: rest)).map (fun c => c.1.length) =
        runSizesGo e 1 (rest.map Prod.snd) := by
      show (groupSpansToks e [t] (capitalize e) rest).map (fun c => c.1.length) = _
      have h1 := groupSpansToks_sizes rest e (capitalize e) [t]
      simpa using h1
    unfold spanOfToken
    rw [hsz]
    cases i with
    | zero =>
      cases rest with
      | nil => simp at h
      | cons p' rest' =>
        obtain ⟨t', e'⟩ := p'
        have hee : e' ≠ e := by
          simp only [List.map_cons, List.getD_cons_zero, List.getD_cons_succ] at hD
          exact fun hc => hD (hc ▸ rfl)
        have h0 : spanOf (runSizesGo e 1 (e' :: rest'.map Prod.snd)) 0 = 0 :=
          spanOf_runSizesGo_lt _ e 1 0 Nat.one_pos
        have h1 : spanOf (runSizesGo e 1 (e' :: rest'.map Prod.snd)) 1 =
            if e' = e then 0 else 1 :=
          spanOf_runSizesGo_boundary e 1 e' (rest'.map Prod.snd)
        simp only [List.map_cons, Nat.zero_add]
        rw [h0, h1, if_neg hee]
        simp
    | succ i' =>
      have hlen : i' + 1 < (rest.map Prod.snd).length := by
        simp only [List.length_map]
        simpa using Nat.lt_of_succ_lt_succ h
      have hstep := spanOf_runSizesGo_step (rest.map Prod.snd) e 1 i' hlen
      rw [show (1 : Nat) + i' + 1 = i' + 1 + 1 from by omega,
        show (1 : Nat) + i' = i' + 1 from by omega] at hstep
      have hne : (rest.map Prod.snd).getD (i' + 1) "" ≠
          (rest.map Prod.snd).getD i' "" := by
        simp only [List.map_cons, List.getD_cons_succ] at hD
        exact fun hc => hD (hc ▸ rfl)
      rw [hstep, if_neg hne]
      omega

/-- Witness for **C5** at a concrete input with a label change at position 0. -/
theorem claim5_diff_labels_diff_spans_witness :
    spanOfToken [("Tim", "PERSON"), ("went", "O")] 0 ≠
      spanOfToken [("Tim", "PERSON"), ("went", "O")] 1 :=
  claim5_diff_labels_diff_spans [("Tim", "PERSON"), ("went", "O")] 0
    (by decide) (by decide)

/-- **C9.** The formatter is a pure, deterministic transformation: the literal
state-machine model of the Python function — the mutable locals
`(i, idx_to_token_map, idx_to_ent_map)` threaded as explicit state through the
loop, touching no state outside these local accumulators — computes, on every
input, exactly the same result as the recursive pure function
`formatTaggedTokens`; hence any two runs on the same tagged-token sequence
return the same output string. -/
theorem claim9_pure_deterministic (l : List (String × String)) :
    formatTaggedTokensLoop l = formatTaggedTokens l := by
  cases l with
  | nil => rfl
  | cons p rest =>
    obtain ⟨t₀, e₀⟩ := p
    simp only [formatTaggedTokensLoop, List.map_cons, List.getD_cons_zero,
      List.length_cons, List.length_map, Nat.add_sub_cancel]
    rw [loopFold_invariant rest t₀ e₀ rest.length (le_refl _)]
    dsimp only
    rw [List.take_length, renderLoop_eq_map]
    rfl
